import Mathlib

/-!
Shallow embedding of the rolling-window statistical transform engine of the
EpochScript repository: the FFD (fractional differencing) weight generator and
filter (`generate_test_data.py`), and the rolling half-life / ADF /
Engle-Granger / Johansen computations (`generate_cointegration_expected.py`).

Real arithmetic of the Python source (numpy floats) is embedded as exact
rational arithmetic over `ℚ`; the transcendental logarithm and the external
statistical collaborators (ADF-equivalent stationarity test, Johansen
eigen-decomposition) are abstract function parameters, as the specification
treats them as external black boxes.  Division by zero follows the Lean
`x / 0 = 0` convention, which is only exercised on degenerate inputs.
-/

namespace EpochScript

/-- An input time series: ordered rational values indexed `0..n-1`. -/
abbrev Series := List ℚ

/-- The window slice `series[t-window+1 .. t]` produced by `WindowBuffer`
(Python `series[i - window + 1 : i + 1]`), as natural-number index
arithmetic `t + 1 - window`. -/
def windowSlice {α : Type} (s : List α) (window t : ℕ) : List α :=
  (s.drop (t + 1 - window)).take window

/-- Arithmetic mean of a list (`np.mean`); `0` on the empty list. -/
def mean (l : List ℚ) : ℚ := l.sum / l.length

/-- Sample covariance with the Bessel-corrected `N-1` denominator, the
semantics of `np.cov(a, b)[0, 1]` at its default `ddof`. -/
def sampleCov (a b : List ℚ) : ℚ :=
  (((a.zip b).map (fun p => (p.1 - mean a) * (p.2 - mean b))).sum) /
    ((a.length : ℚ) - 1)

/-- Sample variance with the `N-1` denominator, the semantics of
`np.var(a, ddof=1)`. -/
def sampleVar (a : List ℚ) : ℚ :=
  ((a.map (fun v => (v - mean a) ^ 2)).sum) / ((a.length : ℚ) - 1)

/-- Population covariance with the `N` denominator (the variant computed in
`debug_comparison.py` as `np.mean(y_t * y_lag) - mean_y * mean_y_lag`,
flagged there as the defective convention). -/
def popCov (a b : List ℚ) : ℚ :=
  (((a.zip b).map (fun p => (p.1 - mean a) * (p.2 - mean b))).sum) /
    (a.length : ℚ)

/-- Population variance with the `N` denominator (`np.var` at `ddof=0`). -/
def popVar (a : List ℚ) : ℚ :=
  ((a.map (fun v => (v - mean a) ^ 2)).sum) / (a.length : ℚ)

/-- The `1e-10` variance floor of the half-life AR(1) code. -/
def tinyVar : ℚ := 1 / 10 ^ 10

/-- The `0.05` significance level used for the stationarity and
cointegration flags. -/
def pThresh : ℚ := 5 / 100

/-! ### FFDWeightGenerator (`compute_ffd_weights`) -/

/-- The body of the Python weight loop
`for k in range(1, max_size): w = -w * (d - k + 1) / k; if abs(w) < threshold:
break; weights.append(w)`, with the remaining iteration count as fuel. -/
def ffdLoop (d threshold : ℚ) : ℚ → ℕ → ℕ → List ℚ
  | _, _, 0 => []
  | w, k, fuel + 1 =>
    let w2 := -w * (d - (k : ℚ) + 1) / (k : ℚ)
    if |w2| < threshold then []
    else w2 :: ffdLoop d threshold w2 (k + 1) fuel

/-- Python `compute_ffd_weights(d, threshold, max_size)`: starts from `weights = [1.0]`
and runs the recurrence loop over `k = 1 .. max_size - 1`. -/
def compute_ffd_weights (d threshold : ℚ) (max_size : ℕ) : List ℚ :=
  1 :: ffdLoop d threshold 1 1 (max_size - 1)

/-- The pure FFD weight recurrence `w 0 = 1`, `w k = -w (k-1) * (d - k + 1) / k`. -/
def wrec (d : ℚ) : ℕ → ℚ
  | 0 => 1
  | k + 1 => -wrec d k * (d - (k + 1 : ℕ) + 1) / ((k + 1 : ℕ) : ℚ)

/-! ### FracDiffFilter (`frac_diff_manual`) -/

/-- Python `frac_diff_manual(series, d, threshold)`: computes the weights, then for
each `t ≥ len(weights) - 1` the causal convolution
`Σ_{k < len(weights)} weights[k] * series[t-k]`; earlier indices hold the
NaN sentinel, embedded as `none`. -/
def frac_diff_manual (s : Series) (d threshold : ℚ) : List (Option ℚ) :=
  let weights := compute_ffd_weights d threshold 10000
  let window := weights.length
  (List.range s.length).map (fun t =>
    if t + 1 < window then none
    else some (((List.range window).map
      (fun k => weights.getD k 0 * s.getD (t - k) 0)).sum))

/-! ### HalfLifeEstimator (`compute_half_life_ar1`) -/

/-- The AR(1) coefficient of one window, as the code computes it:
`cov = np.cov(y_t, y_lag)[0,1]`, `var_lag = np.var(y_lag, ddof=1)`,
`phi = cov / var_lag if var_lag > 1e-10 else 0.0`, with `y_t = wd[1:]` and
`y_lag = wd[:-1]`. -/
def phiAt (s : Series) (window t : ℕ) : ℚ :=
  let wd := windowSlice s window t
  let y_t := wd.drop 1
  let y_lag := wd.dropLast
  let cov := sampleCov y_t y_lag
  let var_lag := sampleVar y_lag
  if var_lag > tinyVar then cov / var_lag else 0

/-- The §4.4 spec formula for `phi`, written from the specification text for
refinement comparison: `mean_y`, `mean_lag`, `cov = Σ (y_t[i]-mean_y)
(y_lag[i]-mean_lag) / (n-1)`, `var_lag = Σ (y_lag[i]-mean_lag)^2 / (n-1)`
with `n = window - 1` the pair count, and `phi = cov / var_lag` when
`var_lag > 1e-10`, else `0`. -/
def phiSpecSample (slice : List ℚ) : ℚ :=
  let y_t := slice.drop 1
  let y_lag := slice.dropLast
  let mean_y := mean y_t
  let mean_lag := mean y_lag
  let n : ℚ := (y_lag.length : ℚ)
  let cov := ((y_t.zip y_lag).map
    (fun p => (p.1 - mean_y) * (p.2 - mean_lag))).sum / (n - 1)
  let var_lag := (y_lag.map (fun v => (v - mean_lag) ^ 2)).sum / (n - 1)
  if var_lag > tinyVar then cov / var_lag else 0

/-- The population-denominator variant of the same window coefficient
(`debug_comparison.py`, method 2): both moments divided by `N`, guard on the
population variance. -/
def phiPopVariant (slice : List ℚ) : ℚ :=
  let y_t := slice.drop 1
  let y_lag := slice.dropLast
  let cov := popCov y_t y_lag
  let var_lag := popVar y_lag
  if var_lag > tinyVar then cov / var_lag else 0

/-- One output row of `compute_half_life_ar1`: the float columns are `Option`
(`none` is the NaN sentinel), the `is_mean_reverting` column is an integer. -/
structure HalfLifeRow where
  half_life : Option ℚ
  ar1_coef : Option ℚ
  is_mean_reverting : ℕ
  deriving DecidableEq, Repr

/-- The all-sentinel half-life row (initial array contents). -/
def hlSentinel : HalfLifeRow := ⟨none, none, 0⟩

/-- The row computed at index `t`.  `L` is the abstract logarithm primitive
(`np.log`); the code computes `half_life = min(-log 2 / log phi, window*10)`
when `0 < phi < 1`, and leaves the NaN sentinel with flag `0` otherwise. -/
def halfLifeRowAt (L : ℚ → ℚ) (s : Series) (window t : ℕ) : HalfLifeRow :=
  if t + 1 < window then hlSentinel
  else
    let phi := phiAt s window t
    if 0 < phi ∧ phi < 1 then
      ⟨some (min (-(L 2) / L phi) ((window : ℚ) * 10)), some phi, 1⟩
    else ⟨none, some phi, 0⟩

/-- Python `compute_half_life_ar1(series, window)`: one row per input index. -/
def compute_half_life_ar1 (L : ℚ → ℚ) (s : Series) (window : ℕ) :
    List HalfLifeRow :=
  (List.range s.length).map (halfLifeRowAt L s window)

/-! ### Rolling ADF (`compute_rolling_adf`) -/

/-- The result contract of the external ADF-equivalent stationarity test
(§6): statistic, p-value and the three critical values. -/
structure AdfResult where
  statistic : ℚ
  p_value : ℚ
  crit_1 : ℚ
  crit_5 : ℚ
  crit_10 : ℚ
  deriving DecidableEq, Repr

/-- An external stationarity-test collaborator: may fail (`none`) on a given
window, embedding the Python call raising an exception. -/
abbrev StationarityTest := Series → Option AdfResult

/-- One output row of `compute_rolling_adf`. -/
structure AdfRow where
  adf_stat : Option ℚ
  p_value : Option ℚ
  critical_1pct : Option ℚ
  critical_5pct : Option ℚ
  critical_10pct : Option ℚ
  is_stationary : ℕ
  deriving DecidableEq, Repr

/-- The all-sentinel ADF row. -/
def adfSentinel : AdfRow := ⟨none, none, none, none, none, 0⟩

/-- The ADF row at index `t`: warm-up and collaborator failure leave the
sentinel row; on success the fields are filled and
`is_stationary = 1 if p_value < 0.05 else 0`. -/
def adfRowAt (test : StationarityTest) (s : Series) (window t : ℕ) : AdfRow :=
  if t + 1 < window then adfSentinel
  else
    match test (windowSlice s window t) with
    | none => adfSentinel
    | some r =>
      ⟨some r.statistic, some r.p_value, some r.crit_1, some r.crit_5,
       some r.crit_10, if r.p_value < pThresh then 1 else 0⟩

/-- Python `compute_rolling_adf(series, window)`: one row per input index. -/
def compute_rolling_adf (test : StationarityTest) (s : Series) (window : ℕ) :
    List AdfRow :=
  (List.range s.length).map (adfRowAt test s window)

/-! ### CointegrationTester (`compute_engle_granger`) -/

/-- OLS of `y` on `x` with an intercept (`OLS(y_win, add_constant(x_win))`),
by the normal equations: `beta = Σ(x-x̄)(y-ȳ) / Σ(x-x̄)²`,
`alpha = ȳ - beta * x̄`; fails when the regressor has no variation. -/
def olsFit (x y : List ℚ) : Option (ℚ × ℚ) :=
  let mx := mean x
  let my := mean y
  let sxx := (x.map (fun v => (v - mx) ^ 2)).sum
  let sxy := ((x.zip y).map (fun p => (p.1 - mx) * (p.2 - my))).sum
  if sxx = 0 then none
  else
    let beta := sxy / sxx
    some (my - beta * mx, beta)

/-- The residual spread series `y - alpha - beta * x` of an OLS fit over
aligned series. -/
def residualSeries (y x : List ℚ) (alpha beta : ℚ) : List ℚ :=
  (y.zip x).map (fun p => p.1 - alpha - beta * p.2)

/-- Modelled from the spec: the external Engle-Granger test collaborator
(`statsmodels.tsa.stattools.coint`, not part of this repository), per its
documented contract and §4.5/§6 — regress `y` on `x` with a constant by OLS,
then delegate the residual spread series to the stationarity test; fails when
either step fails. -/
def cointDelegate (test : StationarityTest) (y x : List ℚ) : Option AdfResult :=
  match olsFit x y with
  | none => none
  | some (alpha, beta) => test (residualSeries y x alpha beta)

/-- One output row of `compute_engle_granger`. -/
structure EGRow where
  hedge_ratio : Option ℚ
  intercept : Option ℚ
  spread : Option ℚ
  adf_stat : Option ℚ
  p_value : Option ℚ
  critical_1pct : Option ℚ
  critical_5pct : Option ℚ
  critical_10pct : Option ℚ
  is_cointegrated : ℕ
  deriving DecidableEq, Repr

/-- The all-sentinel Engle-Granger row. -/
def egSentinel : EGRow := ⟨none, none, none, none, none, none, none, none, 0⟩

/-- The Engle-Granger row at index `t`, following the Python assignment order:
the Step-1 fields (`hedge_ratio`, `intercept`, `spread`) are written before
the external `coint` call, so a Step-2 failure after a successful regression
leaves those fields computed and only the Step-2 fields sentinel. -/
def egRowAt (test : StationarityTest) (y x : Series) (window t : ℕ) : EGRow :=
  if t + 1 < window then egSentinel
  else
    let yw := windowSlice y window t
    let xw := windowSlice x window t
    match olsFit xw yw with
    | none => egSentinel
    | some (alpha, beta) =>
      let spread := y.getD t 0 - alpha - beta * x.getD t 0
      match cointDelegate test yw xw with
      | none =>
        ⟨some beta, some alpha, some spread, none, none, none, none, none, 0⟩
      | some r =>
        ⟨some beta, some alpha, some spread, some r.statistic, some r.p_value,
         some r.crit_1, some r.crit_5, some r.crit_10,
         if r.p_value < pThresh then 1 else 0⟩

/-- Python `compute_engle_granger(y, x, window)`: one row per index of `y`. -/
def compute_engle_granger (test : StationarityTest) (y x : Series)
    (window : ℕ) : List EGRow :=
  (List.range y.length).map (egRowAt test y x window)

/-! ### Johansen / RankEstimator (`compute_johansen`) -/

/-- The result contract of the external Johansen eigen-decomposition
collaborator (§6): eigenvalues, trace statistics `lr1`, max-eigenvalue
statistics `lr2`, and the two critical-value rows, each a `(10%, 5%, 1%)`
column triple (`cvt` columns `0/1/2`). -/
structure JohansenResult where
  eig0 : ℚ
  eig1 : ℚ
  lr1_0 : ℚ
  lr1_1 : ℚ
  lr2_0 : ℚ
  lr2_1 : ℚ
  cvt0 : ℚ × ℚ × ℚ
  cvt1 : ℚ × ℚ × ℚ
  deriving DecidableEq, Repr

/-- An external Johansen collaborator over the two-column window matrix. -/
abbrev JohansenDecomp := List (ℚ × ℚ) → Option JohansenResult

/-- The sequential 5%-column rank decision of `compute_johansen`:
`rank = 0`; `if lr1[0] > cvt[0,1]: rank = 1; if lr1[1] > cvt[1,1]: rank = 2`
(the 5% critical value is the middle column of each triple). -/
def johansenRank (lr1_0 lr1_1 : ℚ) (cvt0 cvt1 : ℚ × ℚ × ℚ) : ℕ :=
  if lr1_0 > cvt0.2.1 then
    if lr1_1 > cvt1.2.1 then 2 else 1
  else 0

/-- One output row of `compute_johansen` (2-variable case). -/
structure JohRow where
  rank : Option ℕ
  trace_stat_0 : Option ℚ
  trace_stat_1 : Option ℚ
  max_stat_0 : Option ℚ
  max_stat_1 : Option ℚ
  eigval_0 : Option ℚ
  eigval_1 : Option ℚ
  deriving DecidableEq, Repr

/-- The all-sentinel Johansen row. -/
def johSentinel : JohRow := ⟨none, none, none, none, none, none, none⟩

/-- The Johansen row at index `t`: the external decomposition is the first
call of the `try` block, so its failure leaves the whole row sentinel. -/
def johRowAt (coll : JohansenDecomp) (data : List (ℚ × ℚ)) (window t : ℕ) :
    JohRow :=
  if t + 1 < window then johSentinel
  else
    match coll (windowSlice data window t) with
    | none => johSentinel
    | some r =>
      ⟨some (johansenRank r.lr1_0 r.lr1_1 r.cvt0 r.cvt1), some r.lr1_0,
       some r.lr1_1, some r.lr2_0, some r.lr2_1, some r.eig0, some r.eig1⟩

/-- Python `compute_johansen(data, window)`: one row per input row. -/
def compute_johansen (coll : JohansenDecomp) (data : List (ℚ × ℚ))
    (window : ℕ) : List JohRow :=
  (List.range data.length).map (johRowAt coll data window)

/-! ### Helper lemmas -/

/-- Indexing one row of a per-index map over `List.range`. -/
theorem rows_get? {α : Type} (f : ℕ → α) {n t : ℕ} (h : t < n) :
    ((List.range n).map f).get? t = some (f t) := by
  rw [List.get?_map, List.get?_range h]
  rfl

/-- Length of a per-index map over `List.range`. -/
theorem rows_length {α : Type} (f : ℕ → α) (n : ℕ) :
    ((List.range n).map f).length = n := by
  simp

/-- A per-index map all of whose rows are a constant is a `replicate`. -/
theorem rows_eq_replicate {α : Type} (f : ℕ → α) (n : ℕ) (c : α)
    (h : ∀ t, t < n → f t = c) :
    (List.range n).map f = List.replicate n c := by
  refine List.eq_replicate.mpr ⟨by simp, ?_⟩
  intro b hb
  obtain ⟨t, ht, rfl⟩ := List.exists_of_mem_map hb
  exact h t (List.mem_range.mp ht)

/-- The weight loop stops (returning `[]`) when the freshly computed weight
falls below the threshold. -/
theorem ffdLoop_break (d thr w : ℚ) (k fuel : ℕ)
    (h : |-w * (d - (k : ℚ) + 1) / (k : ℚ)| < thr) :
    ffdLoop d thr w k (fuel + 1) = [] := by
  rw [ffdLoop]
  simp only [if_pos h]

/-- The weight loop appends the freshly computed weight and continues when it
is not below the threshold. -/
theorem ffdLoop_cont (d thr w : ℚ) (k fuel : ℕ)
    (h : ¬ |-w * (d - (k : ℚ) + 1) / (k : ℚ)| < thr) :
    ffdLoop d thr w k (fuel + 1) =
      (-w * (d - (k : ℚ) + 1) / (k : ℚ)) ::
        ffdLoop d thr (-w * (d - (k : ℚ) + 1) / (k : ℚ)) (k + 1) fuel := by
  rw [ffdLoop]
  simp only [if_neg h]

/-- The recurrence step of `wrec` for any positive index. -/
theorem wrec_succ_eq (d : ℚ) (k : ℕ) (hk : 1 ≤ k) :
    wrec d k = -wrec d (k - 1) * (d - (k : ℚ) + 1) / (k : ℚ) := by
  obtain ⟨m, rfl⟩ := Nat.exists_eq_add_of_le hk
  have h1 : 1 + m - 1 = m := by omega
  have h2 : 1 + m = m + 1 := Nat.add_comm 1 m
  rw [h1, h2]
  rfl

/-- Loop invariant of `ffdLoop`: started at index `k ≥ 1` from the previous
recurrence value, it produces exactly the recurrence values `wrec d k,
wrec d (k+1), …`, each of magnitude at least the threshold, stops within the
fuel, and when it stops early the next recurrence value is below the
threshold. -/
theorem ffdLoop_spec (d thr : ℚ) :
    ∀ (fuel k : ℕ), 1 ≤ k →
      (∀ i, i < (ffdLoop d thr (wrec d (k - 1)) k fuel).length →
        (ffdLoop d thr (wrec d (k - 1)) k fuel).getD i 0 = wrec d (k + i)) ∧
      (ffdLoop d thr (wrec d (k - 1)) k fuel).length ≤ fuel ∧
      (∀ i, i < (ffdLoop d thr (wrec d (k - 1)) k fuel).length →
        thr ≤ |wrec d (k + i)|) ∧
      ((ffdLoop d thr (wrec d (k - 1)) k fuel).length < fuel →
        |wrec d (k + (ffdLoop d thr (wrec d (k - 1)) k fuel).length)| < thr)
  | 0, k, _ => by simp [ffdLoop]
  | fuel + 1, k, hk => by
    have hw2 : -wrec d (k - 1) * (d - (k : ℚ) + 1) / (k : ℚ) = wrec d k :=
      (wrec_succ_eq d k hk).symm
    by_cases hbr : |-wrec d (k - 1) * (d - (k : ℚ) + 1) / (k : ℚ)| < thr
    · rw [ffdLoop_break d thr _ k fuel hbr]
      refine ⟨by simp, by simp, by simp, ?_⟩
      intro _
      rw [List.length_nil, Nat.add_zero, ← hw2]
      exact hbr
    · rw [ffdLoop_cont d thr _ k fuel hbr, hw2]
      have ih := ffdLoop_spec d thr fuel (k + 1) (by omega)
      rw [Nat.add_sub_cancel] at ih
      obtain ⟨ih1, ih2, ih3, ih4⟩ := ih
      rw [hw2] at hbr
      refine ⟨?_, ?_, ?_, ?_⟩
      · intro i hi
        match i with
        | 0 => simp
        | j + 1 =>
          have hj : j < (ffdLoop d thr (wrec d k) (k + 1) fuel).length := by
            simpa using hi
          have := ih1 j hj
          simpa [Nat.add_assoc, Nat.add_comm 1 j] using this
      · simpa using Nat.succ_le_succ ih2
      · intro i hi
        match i with
        | 0 => simpa using le_of_not_lt hbr
        | j + 1 =>
          have hj : j < (ffdLoop d thr (wrec d k) (k + 1) fuel).length := by
            simpa using hi
          have := ih3 j hj
          simpa [Nat.add_assoc, Nat.add_comm 1 j] using this
      · intro hlt
        have hlt' : (ffdLoop d thr (wrec d k) (k + 1) fuel).length < fuel := by
          simpa using hlt
        have := ih4 hlt'
        have harr : k + (wrec d k ::
            ffdLoop d thr (wrec d k) (k + 1) fuel).length =
            k + 1 + (ffdLoop d thr (wrec d k) (k + 1) fuel).length := by
          simp [Nat.add_assoc, Nat.add_comm 1]
        rw [harr]
        exact this

/-- Every weight in the generated series is the corresponding recurrence
value. -/
theorem compute_ffd_weights_getD (d thr : ℚ) (k : ℕ)
    (hk : k < (compute_ffd_weights d thr 10000).length) :
    (compute_ffd_weights d thr 10000).getD k 0 = wrec d k := by
  have hspec := ffdLoop_spec d thr 9999 1 (le_refl 1)
  match k with
  | 0 => rfl
  | j + 1 =>
    have hj : j < (ffdLoop d thr (wrec d 0) 1 9999).length := by
      have : (compute_ffd_weights d thr 10000) =
          1 :: ffdLoop d thr (wrec d 0) 1 9999 := rfl
      rw [this] at hk
      simpa using hk
    have := hspec.1 j hj
    have hrw : (compute_ffd_weights d thr 10000).getD (j + 1) 0 =
        (ffdLoop d thr (wrec d 0) 1 9999).getD j 0 := rfl
    rw [hrw, this, Nat.add_comm 1 j]

/-- Unfolding of `frac_diff_manual` to its per-index map form. -/
theorem frac_diff_manual_eq (s : Series) (d thr : ℚ) :
    frac_diff_manual s d thr = (List.range s.length).map (fun t =>
      if t + 1 < (compute_ffd_weights d thr 10000).length then none
      else some (((List.range (compute_ffd_weights d thr 10000).length).map
        (fun k => (compute_ffd_weights d thr 10000).getD k 0 *
          s.getD (t - k) 0)).sum)) := rfl

/-! ### Claim theorems -/

/-- Claim C2: for every real `d` and threshold `> 0`, the generated FFD weight
series starts at `1.0`, satisfies `weights[k] = -weights[k-1] * (d-k+1)/k` at
every `k ≥ 1` present, stops at the first `k` whose recurrence weight has
magnitude below the threshold or at the hard length guard of `10000`
(every kept weight from index 1 on has magnitude at least the threshold, and
when the guard was not hit the next recurrence weight is below it, so the
triggering weight is excluded). -/
theorem C2_ffd_weight_recurrence (d thr : ℚ) (hthr : 0 < thr) :
    (compute_ffd_weights d thr 10000).getD 0 0 = 1 ∧
    (∀ k, 1 ≤ k → k < (compute_ffd_weights d thr 10000).length →
      (compute_ffd_weights d thr 10000).getD k 0 =
        -((compute_ffd_weights d thr 10000).getD (k - 1) 0) *
          (d - (k : ℚ) + 1) / (k : ℚ)) ∧
    (compute_ffd_weights d thr 10000).length ≤ 10000 ∧
    (∀ k, 1 ≤ k → k < (compute_ffd_weights d thr 10000).length →
      thr ≤ |(compute_ffd_weights d thr 10000).getD k 0|) ∧
    ((compute_ffd_weights d thr 10000).length < 10000 →
      |wrec d ((compute_ffd_weights d thr 10000).length)| < thr) := by
  have hspec := ffdLoop_spec d thr 9999 1 (le_refl 1)
  simp only [Nat.sub_self] at hspec
  have hlen : (compute_ffd_weights d thr 10000).length =
      (ffdLoop d thr (wrec d 0) 1 9999).length + 1 := rfl
  refine ⟨rfl, ?_, ?_, ?_, ?_⟩
  · intro k hk1 hk2
    rw [compute_ffd_weights_getD d thr k hk2,
        compute_ffd_weights_getD d thr (k - 1) (by omega)]
    exact wrec_succ_eq d k hk1
  · have h2 := hspec.2.1
    omega
  · intro k hk1 hk2
    rw [compute_ffd_weights_getD d thr k hk2]
    obtain ⟨j, rfl⟩ := Nat.exists_eq_add_of_le hk1
    have hj : j < (ffdLoop d thr (wrec d 0) 1 9999).length := by omega
    exact hspec.2.2.1 j hj
  · intro hlt
    have hl2 : (ffdLoop d thr (wrec d 0) 1 9999).length < 9999 := by omega
    have hnext := hspec.2.2.2 hl2
    rw [hlen, Nat.add_comm]
    exact hnext

/-- At `d = 0` the first recurrence weight is `0`, below any positive
threshold, so the generated weight series is `[1.0]` alone. -/
theorem ffd_weights_d0 (thr : ℚ) (hthr : 0 < thr) :
    compute_ffd_weights 0 thr 10000 = [1] := by
  have h0 : |(-(1 : ℚ)) * ((0 : ℚ) - ((1 : ℕ) : ℚ) + 1) / ((1 : ℕ) : ℚ)| <
      thr := by
    norm_num
    exact hthr
  have hw : ffdLoop 0 thr 1 1 9999 = [] := ffdLoop_break 0 thr 1 1 9998 h0
  show (1 :: ffdLoop 0 thr 1 1 9999 : List ℚ) = [1]
  rw [hw]

/-- Witness for C2 at `d = 0`, `threshold = 1/10` (weights `[1]`): first
weight `1`, length within the guard, and the excluded next recurrence weight
(`0`) is below the threshold. -/
theorem C2_ffd_weight_recurrence_witness :
    (compute_ffd_weights 0 (1/10) 10000).getD 0 0 = 1 ∧
    (compute_ffd_weights 0 (1/10) 10000).length ≤ 10000 ∧
    |wrec 0 ((compute_ffd_weights 0 (1/10) 10000).length)| < 1/10 :=
  ⟨(C2_ffd_weight_recurrence 0 (1/10) (by norm_num)).1,
   (C2_ffd_weight_recurrence 0 (1/10) (by norm_num)).2.2.1,
   (C2_ffd_weight_recurrence 0 (1/10) (by norm_num)).2.2.2.2
     (by rw [ffd_weights_d0 (1/10) (by norm_num)]; norm_num)⟩

/-- Claim C7: `d = 0` yields the single weight `[1.0]` and the fractional
difference filter is the identity at every valid index. -/
theorem C7_identity_filter (thr : ℚ) (hthr : 0 < thr) :
    compute_ffd_weights 0 thr 10000 = [1] ∧
    ∀ (s : Series) (t : ℕ), t < s.length →
      (frac_diff_manual s 0 thr).get? t = some (some (s.getD t 0)) := by
  have hws := ffd_weights_d0 thr hthr
  refine ⟨hws, ?_⟩
  intro s t ht
  have hmain : frac_diff_manual s 0 thr =
      (List.range s.length).map (fun u => some (s.getD u 0)) := by
    unfold frac_diff_manual
    simp only [hws]
    refine List.map_congr_left ?_
    intro a _
    have hr1 : List.range 1 = [0] := rfl
    simp [hr1]
  rw [hmain, rows_get? _ ht]

/-- Witness for C7 at `threshold = 1/10` and series `[3, 1, 4]`. -/
theorem C7_identity_filter_witness :
    compute_ffd_weights 0 (1/10) 10000 = [1] ∧
    (frac_diff_manual [3, 1, 4] 0 (1/10)).get? 1 =
      some (some (([3, 1, 4] : Series).getD 1 0)) :=
  ⟨(C7_identity_filter (1/10) (by norm_num)).1,
   (C7_identity_filter (1/10) (by norm_num)).2 [3, 1, 4] 1 (by decide)⟩

/-- Claim C9: the rank decision returns `0` when the first trace statistic
does not exceed its 5% critical value, `1` when only the first does, `2` when
both do, and never exceeds `n_vars = 2`. -/
theorem C9_rank_decision (lr1_0 lr1_1 : ℚ) (cvt0 cvt1 : ℚ × ℚ × ℚ) :
    (lr1_0 ≤ cvt0.2.1 → johansenRank lr1_0 lr1_1 cvt0 cvt1 = 0) ∧
    (cvt0.2.1 < lr1_0 → lr1_1 ≤ cvt1.2.1 →
      johansenRank lr1_0 lr1_1 cvt0 cvt1 = 1) ∧
    (cvt0.2.1 < lr1_0 → cvt1.2.1 < lr1_1 →
      johansenRank lr1_0 lr1_1 cvt0 cvt1 = 2) ∧
    johansenRank lr1_0 lr1_1 cvt0 cvt1 ≤ 2 := by
  unfold johansenRank
  refine ⟨?_, ?_, ?_, ?_⟩
  · intro h
    rw [if_neg (not_lt.mpr h)]
  · intro h1 h2
    rw [if_pos h1, if_neg (not_lt.mpr h2)]
  · intro h1 h2
    rw [if_pos h1, if_pos h2]
  · split_ifs <;> omega

/-- Witness for C9: trace statistics `(10, 1)` against 5% critical values
`5` and `5` give rank `1`. -/
theorem C9_rank_decision_witness :
    johansenRank 10 1 (8, 5, 3) (8, 5, 3) = 1 :=
  (C9_rank_decision 10 1 (8, 5, 3) (8, 5, 3)).2.1 (by norm_num) (by norm_num)

/-- Claim C8: every rolling operation produces an output of the same length
as its input, and every index before the warm-up boundary (`t < window - 1`,
or `t < len(weights) - 1` for the filter) holds the sentinel row. -/
theorem C8_warmup_and_length (L : ℚ → ℚ) (test : StationarityTest)
    (coll : JohansenDecomp) (s y x : Series) (data : List (ℚ × ℚ))
    (w : ℕ) (d thr : ℚ) :
    (compute_half_life_ar1 L s w).length = s.length ∧
    (compute_rolling_adf test s w).length = s.length ∧
    (compute_engle_granger test y x w).length = y.length ∧
    (compute_johansen coll data w).length = data.length ∧
    (frac_diff_manual s d thr).length = s.length ∧
    (∀ t, t < s.length → t + 1 < w →
      (compute_half_life_ar1 L s w).get? t = some hlSentinel) ∧
    (∀ t, t < s.length → t + 1 < w →
      (compute_rolling_adf test s w).get? t = some adfSentinel) ∧
    (∀ t, t < y.length → t + 1 < w →
      (compute_engle_granger test y x w).get? t = some egSentinel) ∧
    (∀ t, t < data.length → t + 1 < w →
      (compute_johansen coll data w).get? t = some johSentinel) ∧
    (∀ t, t < s.length → t + 1 < (compute_ffd_weights d thr 10000).length →
      (frac_diff_manual s d thr).get? t = some none) := by
  refine ⟨rows_length _ _, rows_length _ _, rows_length _ _, rows_length _ _,
    ?_, ?_, ?_, ?_, ?_, ?_⟩
  · rw [frac_diff_manual_eq]
    exact rows_length _ _
  · intro t ht hwarm
    rw [compute_half_life_ar1, rows_get? _ ht, halfLifeRowAt, if_pos hwarm]
  · intro t ht hwarm
    rw [compute_rolling_adf, rows_get? _ ht, adfRowAt, if_pos hwarm]
  · intro t ht hwarm
    rw [compute_engle_granger, rows_get? _ ht, egRowAt, if_pos hwarm]
  · intro t ht hwarm
    rw [compute_johansen, rows_get? _ ht, johRowAt, if_pos hwarm]
  · intro t ht hwarm
    rw [frac_diff_manual_eq, rows_get? _ ht, if_pos hwarm]

/-- Witness for C8 at window `3` over a length-4 series (and `d = 0` weights
of length 1 for the filter): the first two rows are sentinel rows. -/
theorem C8_warmup_and_length_witness :
    (compute_half_life_ar1 (fun _ => 0) [0, 1, 0, 1] 3).get? 1 =
      some hlSentinel ∧
    (compute_rolling_adf (fun _ => none) [0, 1, 0, 1] 3).get? 1 =
      some adfSentinel ∧
    (compute_engle_granger (fun _ => none) [0, 1, 0, 1] [1, 2, 3, 4] 3).get? 1
      = some egSentinel ∧
    (compute_johansen (fun _ => none) [(0, 1), (1, 2), (0, 3), (1, 4)] 3).get?
      1 = some johSentinel :=
  ⟨(C8_warmup_and_length (fun _ => 0) (fun _ => none) (fun _ => none)
      [0, 1, 0, 1] [0, 1, 0, 1] [1, 2, 3, 4] [(0, 1), (1, 2), (0, 3), (1, 4)]
      3 0 1).2.2.2.2.2.1 1 (by decide) (by decide),
   (C8_warmup_and_length (fun _ => 0) (fun _ => none) (fun _ => none)
      [0, 1, 0, 1] [0, 1, 0, 1] [1, 2, 3, 4] [(0, 1), (1, 2), (0, 3), (1, 4)]
      3 0 1).2.2.2.2.2.2.1 1 (by decide) (by decide),
   (C8_warmup_and_length (fun _ => 0) (fun _ => none) (fun _ => none)
      [0, 1, 0, 1] [0, 1, 0, 1] [1, 2, 3, 4] [(0, 1), (1, 2), (0, 3), (1, 4)]
      3 0 1).2.2.2.2.2.2.2.1 1 (by decide) (by decide),
   (C8_warmup_and_length (fun _ => 0) (fun _ => none) (fun _ => none)
      [0, 1, 0, 1] [0, 1, 0, 1] [1, 2, 3, 4] [(0, 1), (1, 2), (0, 3), (1, 4)]
      3 0 1).2.2.2.2.2.2.2.2.1 1 (by decide) (by decide)⟩

/-- Window coefficient evaluation: slice `[0, 1, 0]` gives `phi = -1`
(computed, outside `(0,1)`). -/
theorem phiAt_eval_neg : phiAt [0, 1, 0, 1] 3 2 = -1 := by
  norm_num [phiAt, windowSlice, sampleCov, sampleVar, mean, tinyVar]

/-- Window coefficient evaluation: slice `[0, 2, 3]` gives `phi = 1/2`
(mean-reverting). -/
theorem phiAt_eval_pos : phiAt [0, 2, 3] 3 2 = 1/2 := by
  norm_num [phiAt, windowSlice, sampleCov, sampleVar, mean, tinyVar]

/-- The §4.4 formula agrees with the per-window coefficient of the code: both use
the `N-1` sample convention over the same lag-1 pair sample. -/
theorem phiAt_eq_phiSpec (s : Series) (w t : ℕ) :
    phiAt s w t = phiSpecSample (windowSlice s w t) := by
  have hlen : ((windowSlice s w t).drop 1).length =
      ((windowSlice s w t).dropLast).length := by
    simp [List.length_drop, List.length_dropLast]
  simp only [phiAt, phiSpecSample, sampleCov, sampleVar]
  rw [hlen]

/-- Claim C10: the boolean flag columns are integers holding only `0` or `1`
(never the NaN sentinel); they are `0` at every warm-up index and at every
window where the computation or external collaborator fails, and a window
that is computed with a negative coefficient also carries flag `0`, so flag
`0` does not distinguish "computed and false" from "not computed". -/
theorem C10_flag_semantics (L : ℚ → ℚ) (test : StationarityTest)
    (s y x : Series) (w : ℕ) :
    (∀ r ∈ compute_half_life_ar1 L s w,
      r.is_mean_reverting = 0 ∨ r.is_mean_reverting = 1) ∧
    (∀ r ∈ compute_rolling_adf test s w,
      r.is_stationary = 0 ∨ r.is_stationary = 1) ∧
    (∀ r ∈ compute_engle_granger test y x w,
      r.is_cointegrated = 0 ∨ r.is_cointegrated = 1) ∧
    (∀ t, t < s.length → t + 1 < w →
      ((compute_half_life_ar1 L s w).get? t).map
        HalfLifeRow.is_mean_reverting = some 0) ∧
    (∀ t, t < s.length → t + 1 < w →
      ((compute_rolling_adf test s w).get? t).map AdfRow.is_stationary =
        some 0) ∧
    (∀ t, t < y.length → t + 1 < w →
      ((compute_engle_granger test y x w).get? t).map EGRow.is_cointegrated =
        some 0) ∧
    (∀ t, t < s.length → test (windowSlice s w t) = none →
      ((compute_rolling_adf test s w).get? t).map AdfRow.is_stationary =
        some 0) ∧
    (∀ t, t < y.length →
      cointDelegate test (windowSlice y w t) (windowSlice x w t) = none →
      ((compute_engle_granger test y x w).get? t).map EGRow.is_cointegrated =
        some 0) ∧
    (compute_half_life_ar1 L [0, 1, 0, 1] 3).get? 2 =
      some ⟨none, some (-1), 0⟩ := by
  refine ⟨?_, ?_, ?_, ?_, ?_, ?_, ?_, ?_, ?_⟩
  · intro r hr
    obtain ⟨t, -, rfl⟩ := List.exists_of_mem_map hr
    simp only [halfLifeRowAt]
    by_cases hg : t + 1 < w
    · rw [if_pos hg]
      left
      rfl
    · rw [if_neg hg]
      by_cases hphi : 0 < phiAt s w t ∧ phiAt s w t < 1
      · rw [if_pos hphi]
        right
        rfl
      · rw [if_neg hphi]
        left
        rfl
  · intro r hr
    obtain ⟨t, -, rfl⟩ := List.exists_of_mem_map hr
    simp only [adfRowAt]
    by_cases hg : t + 1 < w
    · rw [if_pos hg]
      left
      rfl
    · rw [if_neg hg]
      cases test (windowSlice s w t) with
      | none =>
        left
        rfl
      | some r2 =>
        dsimp only
        by_cases hp : r2.p_value < pThresh
        · rw [if_pos hp]
          right
          rfl
        · rw [if_neg hp]
          left
          rfl
  · intro r hr
    obtain ⟨t, -, rfl⟩ := List.exists_of_mem_map hr
    simp only [egRowAt]
    by_cases hg : t + 1 < w
    · rw [if_pos hg]
      left
      rfl
    · rw [if_neg hg]
      cases olsFit (windowSlice x w t) (windowSlice y w t) with
      | none =>
        left
        rfl
      | some ab =>
        obtain ⟨alpha, beta⟩ := ab
        dsimp only
        cases cointDelegate test (windowSlice y w t) (windowSlice x w t) with
        | none =>
          left
          rfl
        | some r2 =>
          dsimp only
          by_cases hp : r2.p_value < pThresh
          · rw [if_pos hp]
            right
            rfl
          · rw [if_neg hp]
            left
            rfl
  · intro t ht hwarm
    rw [compute_half_life_ar1, rows_get? _ ht, halfLifeRowAt, if_pos hwarm]
    rfl
  · intro t ht hwarm
    rw [compute_rolling_adf, rows_get? _ ht, adfRowAt, if_pos hwarm]
    rfl
  · intro t ht hwarm
    rw [compute_engle_granger, rows_get? _ ht, egRowAt, if_pos hwarm]
    rfl
  · intro t ht hfail
    rw [compute_rolling_adf, rows_get? _ ht]
    simp only [adfRowAt]
    by_cases hg : t + 1 < w
    · rw [if_pos hg]
      rfl
    · rw [if_neg hg, hfail]
      rfl
  · intro t ht hfail
    rw [compute_engle_granger, rows_get? _ ht]
    simp only [egRowAt]
    by_cases hg : t + 1 < w
    · rw [if_pos hg]
      rfl
    · rw [if_neg hg]
      cases holsFit : olsFit (windowSlice x w t) (windowSlice y w t) with
      | none => rfl
      | some ab =>
        obtain ⟨alpha, beta⟩ := ab
        dsimp only
        rw [hfail]
        rfl
  · rw [compute_half_life_ar1, rows_get? _ (by decide)]
    simp only [halfLifeRowAt]
    rw [if_neg (by decide : ¬ (2 + 1 < 3)), phiAt_eval_neg,
      if_neg (by norm_num : ¬ ((0 : ℚ) < -1 ∧ (-1 : ℚ) < 1))]

/-- Witness for C10: warm-up flag `0` for the half-life at index `0` of a
window-3 run, and failure flag `0` for the rolling ADF under an
always-failing collaborator. -/
theorem C10_flag_semantics_witness :
    ((compute_half_life_ar1 (fun _ => 0) [0, 1, 0, 1] 3).get? 0).map
      HalfLifeRow.is_mean_reverting = some 0 ∧
    ((compute_rolling_adf (fun _ => none) [0, 1, 0, 1] 3).get? 2).map
      AdfRow.is_stationary = some 0 :=
  ⟨(C10_flag_semantics (fun _ => 0) (fun _ => none) [0, 1, 0, 1] [0, 1, 0, 1]
      [0, 1, 0, 1] 3).2.2.2.1 0 (by decide) (by decide),
   (C10_flag_semantics (fun _ => 0) (fun _ => none) [0, 1, 0, 1] [0, 1, 0, 1]
      [0, 1, 0, 1] 3).2.2.2.2.2.2.1 2 (by decide) rfl⟩

/-- Claim C6: at every computed window, `0 < phi < 1` yields exactly the row
`(min (-log 2 / log phi) (window*10), phi, flag 1)` — in particular any
computed half-life is at most `window * 10` — while `phi` outside `(0,1)`
yields the sentinel half-life with flag `0`. -/
theorem C6_half_life_derivation (L : ℚ → ℚ) (s : Series) (w t : ℕ)
    (h1 : w ≤ t + 1) (h2 : t < s.length) :
    ((0 < phiAt s w t ∧ phiAt s w t < 1) →
      halfLifeRowAt L s w t =
        ⟨some (min (-(L 2) / L (phiAt s w t)) ((w : ℚ) * 10)),
         some (phiAt s w t), 1⟩ ∧
      ∀ hl, (halfLifeRowAt L s w t).half_life = some hl →
        hl ≤ (w : ℚ) * 10) ∧
    (¬ (0 < phiAt s w t ∧ phiAt s w t < 1) →
      halfLifeRowAt L s w t = ⟨none, some (phiAt s w t), 0⟩) ∧
    (compute_half_life_ar1 L s w).get? t = some (halfLifeRowAt L s w t) := by
  have hg : ¬ (t + 1 < w) := by omega
  refine ⟨?_, ?_, ?_⟩
  · intro hphi
    constructor
    · simp only [halfLifeRowAt]
      rw [if_neg hg, if_pos hphi]
    · intro hl hhl
      simp only [halfLifeRowAt] at hhl
      rw [if_neg hg, if_pos hphi] at hhl
      simp only [Option.some.injEq] at hhl
      rw [← hhl]
      exact min_le_right _ _
  · intro hphi
    simp only [halfLifeRowAt]
    rw [if_neg hg, if_neg hphi]
  · rw [compute_half_life_ar1, rows_get? _ h2]

/-- Witness for C6 at series `[0, 2, 3]`, window `3`, index `2`
(`phi = 1/2 ∈ (0,1)`), with the zero log oracle. -/
theorem C6_half_life_derivation_witness :
    phiAt [0, 2, 3] 3 2 = 1/2 ∧
    (halfLifeRowAt (fun _ => 0) [0, 2, 3] 3 2 =
      ⟨some (min (-(0 : ℚ) / 0) ((3 : ℚ) * 10)), some (phiAt [0, 2, 3] 3 2),
       1⟩ ∧
     ∀ hl, (halfLifeRowAt (fun _ => 0) [0, 2, 3] 3 2).half_life = some hl →
       hl ≤ (3 : ℚ) * 10) :=
  ⟨phiAt_eval_pos,
   (C6_half_life_derivation (fun _ => 0) [0, 2, 3] 3 2 (by decide)
      (by decide)).1 (by rw [phiAt_eval_pos]; norm_num)⟩

/-- Claim C1: the AR(1) coefficient column equals, at every computed window,
the §4.4 sample-convention (`N-1` denominator) formula `phiSpecSample`
applied to the window slice; and the sample convention differs from the
population (`N` denominator) variant on an explicit slice, so the equality
pins the convention the code uses. -/
theorem C1_sample_convention :
    (∀ (L : ℚ → ℚ) (s : Series) (w t : ℕ), w ≤ t + 1 → t < s.length →
      ((compute_half_life_ar1 L s w).get? t).map HalfLifeRow.ar1_coef =
        some (some (phiSpecSample (windowSlice s w t)))) ∧
    phiSpecSample [17/1000000, 0, 1] ≠ phiPopVariant [17/1000000, 0, 1] := by
  constructor
  · intro L s w t h1 h2
    rw [compute_half_life_ar1, rows_get? _ h2]
    have hg : ¬ (t + 1 < w) := by omega
    simp only [halfLifeRowAt]
    rw [if_neg hg, ← phiAt_eq_phiSpec]
    split_ifs <;> rfl
  · have h1 : phiSpecSample [17/1000000, 0, 1] = -1000000/17 := by
      norm_num [phiSpecSample, mean, tinyVar]
    have h2 : phiPopVariant [17/1000000, 0, 1] = 0 := by
      norm_num [phiPopVariant, popCov, popVar, mean, tinyVar]
    rw [h1, h2]
    norm_num

/-- Witness for C1 at series `[0, 2, 3]`, window `3`, index `2`: the stored
coefficient is the sample-convention value `1/2` of the slice `[0, 2, 3]`. -/
theorem C1_sample_convention_witness :
    ((compute_half_life_ar1 (fun _ => 0) [0, 2, 3] 3).get? 2).map
      HalfLifeRow.ar1_coef =
      some (some (phiSpecSample (windowSlice [0, 2, 3] 3 2))) ∧
    phiSpecSample (windowSlice [0, 2, 3] 3 2) = 1/2 :=
  ⟨C1_sample_convention.1 (fun _ => 0) [0, 2, 3] 3 2 (by decide) (by decide),
   by rw [← phiAt_eq_phiSpec]; exact phiAt_eval_pos⟩

/-- The always-failing stationarity test makes the modelled coint delegate
fail regardless of the regression outcome. -/
theorem cointDelegate_none (y x : List ℚ) :
    cointDelegate (fun _ => none) y x = none := by
  unfold cointDelegate
  cases olsFit x y with
  | none => rfl
  | some ab =>
    obtain ⟨a, b⟩ := ab
    rfl

/-- When the window exceeds the series length every half-life row is the
sentinel row. -/
theorem short_input_half_life (L : ℚ → ℚ) (s : Series) (w : ℕ)
    (h : s.length < w) :
    compute_half_life_ar1 L s w = List.replicate s.length hlSentinel := by
  apply rows_eq_replicate
  intro t ht
  rw [halfLifeRowAt, if_pos (by omega)]

/-- When the window exceeds the series length every ADF row is the sentinel
row. -/
theorem short_input_adf (test : StationarityTest) (s : Series) (w : ℕ)
    (h : s.length < w) :
    compute_rolling_adf test s w = List.replicate s.length adfSentinel := by
  apply rows_eq_replicate
  intro t ht
  rw [adfRowAt, if_pos (by omega)]

/-- When the window exceeds the series length every Engle-Granger row is the
sentinel row. -/
theorem short_input_eg (test : StationarityTest) (y x : Series) (w : ℕ)
    (h : y.length < w) :
    compute_engle_granger test y x w = List.replicate y.length egSentinel := by
  apply rows_eq_replicate
  intro t ht
  rw [egRowAt, if_pos (by omega)]

/-- When the window exceeds the data length every Johansen row is the
sentinel row. -/
theorem short_input_johansen (coll : JohansenDecomp) (data : List (ℚ × ℚ))
    (w : ℕ) (h : data.length < w) :
    compute_johansen coll data w = List.replicate data.length johSentinel := by
  apply rows_eq_replicate
  intro t ht
  rw [johRowAt, if_pos (by omega)]

/-- When the weight series is longer than the input every filter output is
the sentinel. -/
theorem short_input_frac_diff (s : Series) (d thr : ℚ)
    (h : s.length < (compute_ffd_weights d thr 10000).length) :
    frac_diff_manual s d thr = List.replicate s.length none := by
  rw [frac_diff_manual_eq]
  apply rows_eq_replicate
  intro t ht
  rw [if_pos (by omega)]

/-- Counterexample to C4 as stated: with `window = 5` over the length-3
series `[1, 2, 3]`, and with an empty input series for the filter, the
rolling operations return an all-sentinel result of the input length — no
call-time error path exists in the code (every function is total over these
inputs). -/
theorem C4_counterexample :
    compute_half_life_ar1 (fun _ => 0) [1, 2, 3] 5 =
      [hlSentinel, hlSentinel, hlSentinel] ∧
    frac_diff_manual [] (1/2) (1/10) = [] ∧
    compute_rolling_adf (fun _ => none) [] 3 = [] := by
  refine ⟨?_, rfl, rfl⟩
  rw [short_input_half_life (fun _ => 0) [1, 2, 3] 5 (by decide)]
  rfl

/-- Claim C4 (amended): when the window exceeds the series length (or the
series is empty, or the weight series is longer than the input), each rolling
operation returns — without raising — an output of the input length whose
every row is the sentinel row. -/
theorem C4_amended_short_input (L : ℚ → ℚ) (test : StationarityTest)
    (coll : JohansenDecomp) (s y x : Series) (data : List (ℚ × ℚ)) (w : ℕ)
    (d thr : ℚ) :
    (s.length < w →
      compute_half_life_ar1 L s w = List.replicate s.length hlSentinel) ∧
    (s.length < w →
      compute_rolling_adf test s w = List.replicate s.length adfSentinel) ∧
    (y.length < w →
      compute_engle_granger test y x w = List.replicate y.length egSentinel) ∧
    (data.length < w →
      compute_johansen coll data w = List.replicate data.length johSentinel) ∧
    (s.length < (compute_ffd_weights d thr 10000).length →
      frac_diff_manual s d thr = List.replicate s.length none) :=
  ⟨short_input_half_life L s w, short_input_adf test s w,
   short_input_eg test y x w, short_input_johansen coll data w,
   short_input_frac_diff s d thr⟩

/-- Witness for the amended C4: window `9` over a length-2 series yields two
sentinel ADF rows and two sentinel Engle-Granger rows. -/
theorem C4_amended_short_input_witness :
    compute_rolling_adf (fun _ => none) [5, 6] 9 =
      List.replicate 2 adfSentinel ∧
    compute_engle_granger (fun _ => none) [5, 6] [7, 8] 9 =
      List.replicate 2 egSentinel :=
  ⟨(C4_amended_short_input (fun _ => 0) (fun _ => none) (fun _ => none)
      [5, 6] [5, 6] [7, 8] [] 9 0 1).2.1 (by decide),
   (C4_amended_short_input (fun _ => 0) (fun _ => none) (fun _ => none)
      [5, 6] [5, 6] [7, 8] [] 9 0 1).2.2.1 (by decide)⟩

/-- Counterexample to C3 as stated: with the always-failing stationarity
test over `y = x = [0, 1]` at window `2`, the Step-1 OLS succeeds, so the
Engle-Granger row at index `1` keeps its computed `hedge_ratio`,
`intercept` and `spread` — the row is not entirely sentinel-filled. -/
theorem C3_counterexample :
    (compute_engle_granger (fun _ => none) [0, 1] [0, 1] 2).get? 1 =
      some ⟨some 1, some 0, some 0, none, none, none, none, none, 0⟩ ∧
    (⟨some 1, some 0, some 0, none, none, none, none, none, 0⟩ : EGRow) ≠
      egSentinel := by
  constructor
  · rw [compute_engle_granger, rows_get? _ (by decide)]
    simp only [egRowAt]
    rw [if_neg (by decide : ¬ (1 + 1 < 2))]
    have hsl : windowSlice ([0, 1] : Series) 2 1 = [0, 1] := rfl
    have hols : olsFit (windowSlice ([0, 1] : Series) 2 1)
        (windowSlice ([0, 1] : Series) 2 1) = some (0, 1) := by
      rw [hsl]
      norm_num [olsFit, mean]
    rw [hols]
    dsimp only
    rw [cointDelegate_none]
    norm_num [List.getD]
  · simp [egSentinel]

/-- Claim C3 (amended): a per-window collaborator failure is caught and
isolated.  For rolling ADF and Johansen the whole row of the failed window is the
sentinel row; for Engle-Granger a Step-2 (stationarity test) failure after a
successful Step-1 regression leaves the Step-1 fields computed and only the
Step-2 fields sentinel (flag `0`), and a Step-1 failure yields the full
sentinel row.  Every other window row is the pure per-window function of
its own slice, and the output always has one row per input index, so the
whole-series computation never aborts. -/
theorem C3_amended_fail_isolation (test : StationarityTest)
    (coll : JohansenDecomp) (s y x : Series) (data : List (ℚ × ℚ))
    (w t : ℕ) :
    (t < s.length → test (windowSlice s w t) = none →
      (compute_rolling_adf test s w).get? t = some adfSentinel) ∧
    (t < data.length → coll (windowSlice data w t) = none →
      (compute_johansen coll data w).get? t = some johSentinel) ∧
    (∀ alpha beta, t < y.length → w ≤ t + 1 →
      olsFit (windowSlice x w t) (windowSlice y w t) = some (alpha, beta) →
      test (residualSeries (windowSlice y w t) (windowSlice x w t)
        alpha beta) = none →
      (compute_engle_granger test y x w).get? t = some
        ⟨some beta, some alpha,
         some (y.getD t 0 - alpha - beta * x.getD t 0),
         none, none, none, none, none, 0⟩) ∧
    (t < y.length → olsFit (windowSlice x w t) (windowSlice y w t) = none →
      (compute_engle_granger test y x w).get? t = some egSentinel) ∧
    (compute_rolling_adf test s w).length = s.length ∧
    (compute_engle_granger test y x w).length = y.length ∧
    (compute_johansen coll data w).length = data.length ∧
    (∀ u, u < s.length →
      (compute_rolling_adf test s w).get? u = some (adfRowAt test s w u)) ∧
    (∀ u, u < y.length →
      (compute_engle_granger test y x w).get? u =
        some (egRowAt test y x w u)) ∧
    (∀ u, u < data.length →
      (compute_johansen coll data w).get? u =
        some (johRowAt coll data w u)) := by
  refine ⟨?_, ?_, ?_, ?_, rows_length _ _, rows_length _ _, rows_length _ _,
    ?_, ?_, ?_⟩
  · intro ht hfail
    rw [compute_rolling_adf, rows_get? _ ht]
    simp only [adfRowAt]
    by_cases hg : t + 1 < w
    · rw [if_pos hg]
    · rw [if_neg hg, hfail]
  · intro ht hfail
    rw [compute_johansen, rows_get? _ ht]
    simp only [johRowAt]
    by_cases hg : t + 1 < w
    · rw [if_pos hg]
    · rw [if_neg hg, hfail]
  · intro alpha beta ht hge hols hres
    rw [compute_engle_granger, rows_get? _ ht]
    simp only [egRowAt]
    rw [if_neg (by omega), hols]
    dsimp only
    have hcd : cointDelegate test (windowSlice y w t) (windowSlice x w t) =
        none := by
      unfold cointDelegate
      rw [hols]
      exact hres
    rw [hcd]
  · intro ht hols
    rw [compute_engle_granger, rows_get? _ ht]
    simp only [egRowAt]
    by_cases hg : t + 1 < w
    · rw [if_pos hg]
    · rw [if_neg hg, hols]
  · intro u hu
    rw [compute_rolling_adf, rows_get? _ hu]
  · intro u hu
    rw [compute_engle_granger, rows_get? _ hu]
  · intro u hu
    rw [compute_johansen, rows_get? _ hu]

/-- Witness for the amended C3: the always-failing test at window `2` of
`[5, 6]` gives the sentinel ADF row at index `1`, and over `y = x = [0, 1]`
gives the partially filled Engle-Granger row at index `1`. -/
theorem C3_amended_fail_isolation_witness :
    (compute_rolling_adf (fun _ => none) [5, 6] 2).get? 1 =
      some adfSentinel ∧
    (compute_engle_granger (fun _ => none) [0, 1] [0, 1] 2).get? 1 = some
      ⟨some 1, some 0,
       some (([0, 1] : Series).getD 1 0 - 0 - 1 * ([0, 1] : Series).getD 1 0),
       none, none, none, none, none, 0⟩ :=
  ⟨(C3_amended_fail_isolation (fun _ => none) (fun _ => none) [5, 6] [0, 1]
      [0, 1] [] 2 1).1 (by decide) rfl,
   (C3_amended_fail_isolation (fun _ => none) (fun _ => none) [5, 6] [0, 1]
      [0, 1] [] 2 1).2.2.1 0 1 (by decide) (by decide)
      (by rw [show windowSlice ([0, 1] : Series) 2 1 = [0, 1] from rfl]
          norm_num [olsFit, mean])
      rfl⟩

/-- Claim C5: at every window whose Step-1 OLS succeeds with `(alpha, beta)`,
the modelled external Engle-Granger collaborator applies the stationarity
test to exactly the residual spread series `y - alpha - beta * x` over the
window, and the resulting statistic, p-value and critical values become
the result row of that window. -/
theorem C5_residual_delegation (test : StationarityTest) (y x : Series)
    (w t : ℕ) (h1 : w ≤ t + 1) (h2 : t < y.length) (alpha beta : ℚ)
    (hols : olsFit (windowSlice x w t) (windowSlice y w t) =
      some (alpha, beta)) :
    cointDelegate test (windowSlice y w t) (windowSlice x w t) =
      test (residualSeries (windowSlice y w t) (windowSlice x w t)
        alpha beta) ∧
    ∀ r, test (residualSeries (windowSlice y w t) (windowSlice x w t)
        alpha beta) = some r →
      (compute_engle_granger test y x w).get? t = some
        ⟨some beta, some alpha,
         some (y.getD t 0 - alpha - beta * x.getD t 0),
         some r.statistic, some r.p_value, some r.crit_1, some r.crit_5,
         some r.crit_10, if r.p_value < pThresh then 1 else 0⟩ := by
  have hcd : cointDelegate test (windowSlice y w t) (windowSlice x w t) =
      test (residualSeries (windowSlice y w t) (windowSlice x w t)
        alpha beta) := by
    unfold cointDelegate
    rw [hols]
  refine ⟨hcd, ?_⟩
  intro r hr
  rw [compute_engle_granger, rows_get? _ h2]
  simp only [egRowAt]
  rw [if_neg (by omega), hols]
  dsimp only
  rw [hcd, hr]

/-- Witness for C5: a constant-success stationarity test over
`y = x = [0, 1]` at window `2`, index `1`, with the Step-1 fit `(0, 1)`. -/
theorem C5_residual_delegation_witness :
    (compute_engle_granger (fun _ => some ⟨1, 1/100, 2, 3, 4⟩) [0, 1] [0, 1]
        2).get? 1 = some
      ⟨some 1, some 0,
       some (([0, 1] : Series).getD 1 0 - 0 - 1 * ([0, 1] : Series).getD 1 0),
       some 1, some (1/100), some 2, some 3, some 4,
       if (1/100 : ℚ) < pThresh then 1 else 0⟩ :=
  (C5_residual_delegation (fun _ => some ⟨1, 1/100, 2, 3, 4⟩) [0, 1] [0, 1]
      2 1 (by decide) (by decide) 0 1
      (by rw [show windowSlice ([0, 1] : Series) 2 1 = [0, 1] from rfl]
          norm_num [olsFit, mean])).2
    ⟨1, 1/100, 2, 3, 4⟩ rfl

end EpochScript
